import Mathlib

/-!
Verification of the ICO encoder in `src/dist/lib/ico.js`.

Buffers are modelled as `List Nat` (one entry per byte).  Node `Buffer`
reads and writes throw a `RangeError` when the position is out of range,
so the pixel-conversion loop, which is the only place where positions are
data-dependent, is modelled in the `Option` monad: `none` means the
JavaScript code would have thrown.  The struct builders
(`createFileHeader`, `createDirectory`, `createBitmapInfoHeader`) write
fixed positions of a freshly allocated buffer, which is the same as
concatenating the little-endian encodings of their fields in order.
-/

namespace Ico

/-- Bytes written by `Buffer.writeUInt16LE v` (exact for `v < 2^16`). -/
def le16 (v : Nat) : List Nat := [v % 256, v / 256 % 256]

/-- Bytes written by `Buffer.writeUInt32LE v` (exact for `v < 2^32`; also the
bytes of `writeInt32LE v` for `0 ≤ v < 2^31`, the only way it is used here). -/
def le32 (v : Nat) : List Nat :=
  [v % 256, v / 256 % 256, v / 65536 % 256, v / 16777216 % 256]

/-- Little-endian 16-bit read (`Buffer.readUInt16LE`), 0 for missing bytes. -/
def readUInt16LE (b : List Nat) (pos : Nat) : Nat :=
  b.getD pos 0 + 256 * b.getD (pos + 1) 0

/-- Little-endian 32-bit read (`Buffer.readUInt32LE`), 0 for missing bytes. -/
def readUInt32LE (b : List Nat) (pos : Nat) : Nat :=
  b.getD pos 0 + 256 * b.getD (pos + 1) 0 + 65536 * b.getD (pos + 2) 0 +
    16777216 * b.getD (pos + 3) 0

/-- A decoded PNG as produced by `pngjs`: dimensions and the raw RGBA bytes
(`png.width`, `png.height`, `png.data`). -/
structure PNG where
  width : Nat
  height : Nat
  data : List Nat
  deriving DecidableEq

/-- `REQUIRED_IMAGE_SIZES` from ico.js. -/
def REQUIRED_IMAGE_SIZES : List Nat := [16, 24, 32, 48, 64, 128, 256]

/-- `FILE_HEADER_SIZE` from ico.js. -/
def FILE_HEADER_SIZE : Nat := 6

/-- `ICO_DIRECTORY_SIZE` from ico.js. -/
def ICO_DIRECTORY_SIZE : Nat := 16

/-- `BITMAPINFOHEADER_SIZE` from ico.js. -/
def BITMAPINFOHEADER_SIZE : Nat := 40

/-- `BI_RGB` from ico.js. -/
def BI_RGB : Nat := 0

/-- `BPP_ALPHA` from ico.js. -/
def BPP_ALPHA : Nat := 4

/-- `Buffer.writeUInt8`-style write: `none` when the position is out of range
(Node throws `ERR_OUT_OF_RANGE`). -/
def bufWrite (b : List Nat) (pos v : Nat) : Option (List Nat) :=
  if pos < b.length then some (b.set pos v) else none

/-- Body of the inner loop of `convertPNGtoDIB` in ico.js for one pixel:
read `r,g,b,a` at `row + col`, write `b,g,r,a` at `rowEnd - row + col`.
Reads are `Buffer.readUInt8` (`none` when out of range).  Inside the loop
`row ≤ rowEnd`, so natural subtraction agrees with JavaScript arithmetic. -/
def movePixel (src : List Nat) (rowEnd row col : Nat) (dest : List Nat) :
    Option (List Nat) := do
  let pos := row + col
  let r ← src[pos]?
  let g ← src[pos + 1]?
  let b ← src[pos + 2]?
  let a ← src[pos + 3]?
  let pos2 := rowEnd - row + col
  let d1 ← bufWrite dest pos2 b
  let d2 ← bufWrite d1 (pos2 + 1) g
  let d3 ← bufWrite d2 (pos2 + 2) r
  bufWrite d3 (pos2 + 3) a

/-- The inner loop `for (col = 0; col < cols; col += bpp)` of
`convertPNGtoDIB`.  Iteration `k` (counting from 0) has `col = k * bpp`;
`n` is the number of iterations still to run.  With `cols = width * bpp`
the loop runs `width` times when `bpp > 0` and `0` times when `bpp = 0`
(then `cols = 0`), which is how `convertPNGtoDIB` instantiates `n`. -/
def dibCols (src : List Nat) (rowEnd row bpp : Nat) :
    Nat → Nat → List Nat → Option (List Nat)
  | _, 0, dest => some dest
  | k, n + 1, dest => do
    let d ← movePixel src rowEnd row (k * bpp) dest
    dibCols src rowEnd row bpp (k + 1) n d

/-- The outer loop `for (row = 0; row < rows; row += cols)` of
`convertPNGtoDIB`.  Iteration `r` has `row = r * cols`; `m` is the number of
iterations still to run.  With `rows = height * cols` the loop runs `height`
times when `cols > 0` and `0` times when `cols = 0` (then `rows = 0`). -/
def dibRows (src : List Nat) (cols bpp rowEnd colCount : Nat) :
    Nat → Nat → List Nat → Option (List Nat)
  | _, 0, dest => some dest
  | r, m + 1, dest => do
    let d ← dibCols src rowEnd (r * cols) bpp 0 colCount dest
    dibRows src cols bpp rowEnd colCount (r + 1) m d

/-- `convertPNGtoDIB` from ico.js: top-down RGBA to bottom-up BGRA.
`dest` starts as `Buffer.alloc(src.length)` (all zero).  The loop-iteration
counts are exactly those of the JavaScript `for` loops (see `dibCols`,
`dibRows`). -/
def convertPNGtoDIB (src : List Nat) (width height bpp : Nat) :
    Option (List Nat) :=
  let cols := width * bpp
  let rows := height * cols
  let rowEnd := rows - cols
  let dest := List.replicate src.length 0
  let colCount := if bpp = 0 then 0 else width
  let rowCount := if cols = 0 then 0 else height
  dibRows src cols bpp rowEnd colCount 0 rowCount dest

/-- `createBitmapInfoHeader` from ico.js.  The eleven fields are written at
offsets 0,4,8,12,14,16,20,24,28,32,36 of a fresh 40-byte buffer, i.e. the
buffer is the concatenation of the encoded fields.  `biWidth` and
`biHeight` use `writeInt32LE`; both are non-negative here, so their bytes
are `le32`. -/
def createBitmapInfoHeader (png : PNG) (compression : Nat) : List Nat :=
  le32 BITMAPINFOHEADER_SIZE ++ le32 png.width ++ le32 (png.height * 2) ++
    le16 1 ++ le16 (BPP_ALPHA * 8) ++ le32 compression ++
    le32 png.data.length ++ le32 0 ++ le32 0 ++ le32 0 ++ le32 0

/-- `createDirectory` from ico.js: the 16-byte icon directory entry.  The
width/height bytes store `256 <= dim ? 0 : dim` (always < 256, so the
`writeUInt8` calls are in range). -/
def createDirectory (png : PNG) (offset : Nat) : List Nat :=
  let size := png.data.length + BITMAPINFOHEADER_SIZE
  let width := if 256 ≤ png.width then 0 else png.width
  let height := if 256 ≤ png.height then 0 else png.height
  let bpp := BPP_ALPHA * 8
  [width, height, 0, 0] ++ le16 1 ++ le16 bpp ++ le32 size ++ le32 offset

/-- `createFileHeader` from ico.js: 6 bytes, reserved, type and count. -/
def createFileHeader (count : Nat) : List Nat :=
  le16 0 ++ le16 1 ++ le16 count

/-- The loop of `writeDirectories` from ico.js, with the running `offset`
accumulator made explicit: emit one directory entry per image, adding
`png.data.length + BITMAPINFOHEADER_SIZE` after each. -/
def writeDirectoriesGo : List PNG → Nat → List Nat
  | [], _ => []
  | png :: rest, offset =>
    createDirectory png offset ++
      writeDirectoriesGo rest (offset + png.data.length + BITMAPINFOHEADER_SIZE)

/-- `writeDirectories` from ico.js: the accumulator starts at
`FILE_HEADER_SIZE + ICO_DIRECTORY_SIZE * pngs.length`. -/
def writeDirectories (pngs : List PNG) : List Nat :=
  writeDirectoriesGo pngs (FILE_HEADER_SIZE + ICO_DIRECTORY_SIZE * pngs.length)

/-- The successive values of the `offset` accumulator of `writeDirectories`:
entry `i` of this list is the `offset` argument passed to `createDirectory`
for image `i`. -/
def dirOffsetsGo : List PNG → Nat → List Nat
  | [], _ => []
  | png :: rest, offset =>
    offset :: dirOffsetsGo rest (offset + png.data.length + BITMAPINFOHEADER_SIZE)

/-- Offsets stored by `writeDirectories pngs`, in image order. -/
def dirOffsets (pngs : List PNG) : List Nat :=
  dirOffsetsGo pngs (FILE_HEADER_SIZE + ICO_DIRECTORY_SIZE * pngs.length)

/-- `writePNGs` from ico.js: per image, one `BITMAPINFOHEADER` (compression
`BI_RGB`) followed by the converted DIB pixel data.  `none` when
`convertPNGtoDIB` would have thrown. -/
def writePNGs : List PNG → Option (List Nat)
  | [] => some []
  | png :: rest => do
    let dib ← convertPNGtoDIB png.data png.width png.height BPP_ALPHA
    let tail ← writePNGs rest
    pure (createBitmapInfoHeader png BI_RGB ++ dib ++ tail)

/-- All bytes written to the stream by `createIconFile` on the happy path:
file header, then the directory entries, then the per-image blocks, in
image order. -/
def icoBytes (pngs : List PNG) : Option (List Nat) :=
  (writePNGs pngs).map fun body =>
    createFileHeader pngs.length ++ writeDirectories pngs ++ body

/-- Source channel feeding destination channel `j` of a converted pixel:
the destination bytes (B,G,R,A) come from source channels (2,1,0,3). -/
def chan : Nat → Nat
  | 0 => 2
  | 1 => 1
  | 2 => 0
  | 3 => 3
  | n => n

theorem movePixel_spec (src : List Nat) (rowEnd row col : Nat) (dest : List Nat)
    (hr : row + col + 3 < src.length)
    (hw : rowEnd - row + col + 3 < dest.length) :
    ∃ d, movePixel src rowEnd row col dest = some d ∧
      d.length = dest.length ∧
      (∀ i, i < rowEnd - row + col ∨ rowEnd - row + col + 3 < i →
        d[i]? = dest[i]?) ∧
      (∀ j, j < 4 →
        d[rowEnd - row + col + j]? = src[row + col + chan j]?) := by
  have h0 : row + col < src.length := by omega
  have h1 : row + col + 1 < src.length := by omega
  have h2 : row + col + 2 < src.length := by omega
  have e0 : src[row + col]? = some src[row + col] := List.getElem?_eq_getElem h0
  have e1 : src[row + col + 1]? = some src[row + col + 1] :=
    List.getElem?_eq_getElem h1
  have e2 : src[row + col + 2]? = some src[row + col + 2] :=
    List.getElem?_eq_getElem h2
  have e3 : src[row + col + 3]? = some src[row + col + 3] :=
    List.getElem?_eq_getElem hr
  have hb0 : rowEnd - row + col < dest.length := by omega
  have hb1 : rowEnd - row + col + 1 < dest.length := by omega
  have hb2 : rowEnd - row + col + 2 < dest.length := by omega
  refine ⟨((((dest.set (rowEnd - row + col) src[row + col + 2]).set
      (rowEnd - row + col + 1) src[row + col + 1]).set
      (rowEnd - row + col + 2) src[row + col]).set
      (rowEnd - row + col + 3) src[row + col + 3]), ?_, ?_, ?_, ?_⟩
  · simp [movePixel, bufWrite, e0, e1, e2, e3, List.length_set, hb0, hb1, hb2, hw]
  · simp [List.length_set]
  · intro i hi
    rw [List.getElem?_set_ne (by omega), List.getElem?_set_ne (by omega),
      List.getElem?_set_ne (by omega), List.getElem?_set_ne (by omega)]
  · intro j hj
    match j, hj with
    | 0, _ =>
      rw [List.getElem?_set_ne (by omega), List.getElem?_set_ne (by omega),
        List.getElem?_set_ne (by omega)]
      rw [show rowEnd - row + col + 0 = rowEnd - row + col by omega]
      rw [List.getElem?_set_self hb0]
      simp [chan, e2]
    | 1, _ =>
      rw [List.getElem?_set_ne (by omega), List.getElem?_set_ne (by omega),
        List.getElem?_set_self (by simp [List.length_set]; omega)]
      simp [chan, e1]
    | 2, _ =>
      rw [List.getElem?_set_ne (by omega),
        List.getElem?_set_self (by simp [List.length_set]; omega)]
      simp [chan, e0]
    | 3, _ =>
      rw [List.getElem?_set_self (by simp [List.length_set]; omega)]
      simp [chan, e3]

theorem dibCols_spec (src : List Nat) (rowEnd row : Nat) :
    ∀ (n k : Nat) (dest : List Nat),
      row ≤ rowEnd →
      row + (k + n) * 4 ≤ src.length →
      rowEnd - row + (k + n) * 4 ≤ dest.length →
      ∃ d, dibCols src rowEnd row 4 k n dest = some d ∧
        d.length = dest.length ∧
        (∀ i, i < rowEnd - row + k * 4 ∨ rowEnd - row + (k + n) * 4 ≤ i →
          d[i]? = dest[i]?) ∧
        (∀ m j, k ≤ m → m < k + n → j < 4 →
          d[rowEnd - row + m * 4 + j]? = src[row + m * 4 + chan j]?) := by
  intro n
  induction n with
  | zero =>
    intro k dest _ _ _
    exact ⟨dest, rfl, rfl, fun i _ => rfl, fun m j h1 h2 _ => by omega⟩
  | succ n ih =>
    intro k dest hrow hsrc hdest
    obtain ⟨d1, hd1, hd1len, hd1un, hd1wr⟩ :=
      movePixel_spec src rowEnd row (k * 4) dest (by omega) (by omega)
    obtain ⟨d, hd, hdlen, hdun, hdwr⟩ :=
      ih (k + 1) d1 hrow (by omega) (by omega)
    refine ⟨d, ?_, by omega, ?_, ?_⟩
    · rw [dibCols, hd1]
      exact hd
    · intro i hi
      rw [hdun i (by omega), hd1un i (by omega)]
    · intro m j hkm hmn hj
      rcases Nat.eq_or_lt_of_le hkm with heq | hlt
      · subst heq
        rw [hdun (rowEnd - row + k * 4 + j) (by omega)]
        exact hd1wr j hj
      · exact hdwr m j (by omega) (by omega) hj

theorem dibRows_spec (src : List Nat) (w rows : Nat) :
    ∀ (m r : Nat) (dest : List Nat),
      (r + m) * (w * 4) ≤ rows →
      rows ≤ src.length →
      rows ≤ dest.length →
      ∃ d, dibRows src (w * 4) 4 (rows - w * 4) w r m dest = some d ∧
        d.length = dest.length ∧
        (∀ i, i < rows - (r + m) * (w * 4) ∨ rows - r * (w * 4) ≤ i →
          d[i]? = dest[i]?) ∧
        (∀ p c j, r ≤ p → p < r + m → c < w → j < 4 →
          d[rows - (p + 1) * (w * 4) + c * 4 + j]? =
            src[p * (w * 4) + c * 4 + chan j]?) := by
  intro m
  induction m with
  | zero =>
    intro r dest _ _ _
    exact ⟨dest, rfl, rfl, fun i _ => rfl, fun p c j h1 h2 _ _ => by omega⟩
  | succ m ih =>
    intro r dest hbound hsrc hdest
    have e1 : (r + (m + 1)) * (w * 4) = r * (w * 4) + m * (w * 4) + w * 4 := by
      ring
    have e2 : (r + 1) * (w * 4) = r * (w * 4) + w * 4 := by ring
    have e3 : (r + 1 + m) * (w * 4) = r * (w * 4) + m * (w * 4) + w * 4 := by
      ring
    obtain ⟨d1, hd1, hd1len, hd1un, hd1wr⟩ :=
      dibCols_spec src (rows - w * 4) (r * (w * 4)) w 0 dest (by omega)
        (by omega) (by omega)
    obtain ⟨d, hd, hdlen, hdun, hdwr⟩ := ih (r + 1) d1 (by omega) hsrc (by omega)
    refine ⟨d, ?_, by omega, ?_, ?_⟩
    · rw [dibRows, hd1]
      exact hd
    · intro i hi
      rw [hdun i (by omega), hd1un i (by omega)]
    · intro p c j hrp hpm hc hj
      rcases Nat.eq_or_lt_of_le hrp with heq | hlt
      · subst heq
        rw [hdun (rows - (r + 1) * (w * 4) + c * 4 + j) (by omega)]
        rw [show rows - (r + 1) * (w * 4) + c * 4 + j
            = rows - w * 4 - r * (w * 4) + c * 4 + j from by omega]
        exact hd1wr c j (by omega) (by omega) hj
      · exact hdwr p c j (by omega) (by omega) hc hj

theorem bufWrite_length (b : List Nat) (pos v : Nat) (d : List Nat)
    (h : bufWrite b pos v = some d) : d.length = b.length := by
  by_cases hp : pos < b.length
  · rw [bufWrite, if_pos hp] at h
    rw [← Option.some.inj h, List.length_set]
  · rw [bufWrite, if_neg hp] at h
    cases h

theorem movePixel_length (src : List Nat) (rowEnd row col : Nat)
    (dest d : List Nat) (h : movePixel src rowEnd row col dest = some d) :
    d.length = dest.length := by
  simp only [movePixel, Option.bind_eq_bind, Option.bind_eq_some] at h
  obtain ⟨r, _, g, _, b, _, a, _, d1, hd1, d2, hd2, d3, hd3, hd⟩ := h
  rw [bufWrite_length _ _ _ _ hd, bufWrite_length _ _ _ _ hd3,
    bufWrite_length _ _ _ _ hd2, bufWrite_length _ _ _ _ hd1]

theorem dibCols_length (src : List Nat) (rowEnd row bpp : Nat) :
    ∀ (n k : Nat) (dest d : List Nat),
      dibCols src rowEnd row bpp k n dest = some d → d.length = dest.length := by
  intro n
  induction n with
  | zero =>
    intro k dest d h
    rw [← Option.some.inj h]
  | succ n ih =>
    intro k dest d h
    rw [dibCols] at h
    simp only [Option.bind_eq_bind, Option.bind_eq_some] at h
    obtain ⟨d1, hd1, hd⟩ := h
    rw [ih (k + 1) d1 d hd, movePixel_length _ _ _ _ _ _ hd1]

theorem dibRows_length (src : List Nat) (cols bpp rowEnd colCount : Nat) :
    ∀ (m r : Nat) (dest d : List Nat),
      dibRows src cols bpp rowEnd colCount r m dest = some d →
      d.length = dest.length := by
  intro m
  induction m with
  | zero =>
    intro r dest d h
    rw [← Option.some.inj h]
  | succ m ih =>
    intro r dest d h
    rw [dibRows] at h
    simp only [Option.bind_eq_bind, Option.bind_eq_some] at h
    obtain ⟨d1, hd1, hd⟩ := h
    rw [ih (r + 1) d1 d hd, dibCols_length _ _ _ _ _ _ _ _ hd1]

theorem convertPNGtoDIB_length (src : List Nat) (width height bpp : Nat)
    (d : List Nat) (h : convertPNGtoDIB src width height bpp = some d) :
    d.length = src.length := by
  rw [convertPNGtoDIB] at h
  rw [dibRows_length _ _ _ _ _ _ _ _ _ h, List.length_replicate]

theorem convertPNGtoDIB_spec (src : List Nat) (w h : Nat)
    (hlen : src.length = w * h * 4) :
    ∃ d, convertPNGtoDIB src w h 4 = some d ∧ d.length = src.length ∧
      ∀ r c j, r < h → c < w → j < 4 →
        d[(h - 1 - r) * (w * 4) + c * 4 + j]? =
          src[r * (w * 4) + c * 4 + chan j]? := by
  rcases Nat.eq_zero_or_pos w with hw | hw
  · subst hw
    have hsrc : src = [] := by
      rw [← List.length_eq_zero]
      omega
    subst hsrc
    exact ⟨[], rfl, rfl, fun r c j _ hc _ => by omega⟩
  · have hw4 : w * 4 ≠ 0 := by omega
    have hrows : w * h * 4 = h * (w * 4) := by ring
    have hconv : convertPNGtoDIB src w h 4 =
        dibRows src (w * 4) 4 (h * (w * 4) - w * 4) w 0 h
          (List.replicate src.length 0) := by
      simp [convertPNGtoDIB, hw4]
    have hzh : (0 + h) * (w * 4) = h * (w * 4) := by ring
    obtain ⟨d, hd, hdlen, _, hdwr⟩ :=
      dibRows_spec src w (h * (w * 4)) h 0 (List.replicate src.length 0)
        (by omega) (by omega) (by simp [List.length_replicate]; omega)
    refine ⟨d, by rw [hconv, hd], by simp [hdlen], ?_⟩
    intro r c j hr hc hj
    have e : (h - 1 - r) * (w * 4) = h * (w * 4) - (r + 1) * (w * 4) := by
      rw [show h - 1 - r = h - (r + 1) from by omega, Nat.sub_mul]
    rw [e]
    exact hdwr r c j (by omega) (by omega) hc hj

theorem chan_lt (j : Nat) (hj : j < 4) : chan j < 4 := by
  match j, hj with
  | 0, _ => decide
  | 1, _ => decide
  | 2, _ => decide
  | 3, _ => decide
  | n + 4, hj => exact absurd hj (by omega)

theorem chan_chan (j : Nat) (hj : j < 4) : chan (chan j) = j := by
  match j, hj with
  | 0, _ => rfl
  | 1, _ => rfl
  | 2, _ => rfl
  | 3, _ => rfl
  | n + 4, hj => exact absurd hj (by omega)

theorem index_decomp (w h i : Nat) (hi : i < w * h * 4) :
    ∃ r c j, r < h ∧ c < w ∧ j < 4 ∧ i = r * (w * 4) + c * 4 + j := by
  have hw : 0 < w := by
    rcases w with _ | w
    · simp at hi
    · omega
  have hw4 : 0 < w * 4 := by omega
  have hmul : w * h * 4 = h * (w * 4) := by ring
  have hrlt : i / (w * 4) < h := (Nat.div_lt_iff_lt_mul hw4).mpr (by omega)
  have hclt : i % (w * 4) / 4 < w :=
    (Nat.div_lt_iff_lt_mul (by omega : (0:Nat) < 4)).mpr (Nat.mod_lt i hw4)
  have h3 : i % (w * 4) % 4 = i % 4 := Nat.mod_mod_of_dvd i ⟨w, by ring⟩
  have h1 := Nat.div_add_mod i (w * 4)
  have h2 := Nat.div_add_mod (i % (w * 4)) 4
  refine ⟨i / (w * 4), i % (w * 4) / 4, i % 4, hrlt, hclt, by omega, ?_⟩
  set q := i / (w * 4) with hq
  set m := i % (w * 4) with hm
  clear_value q m
  clear hq hm
  have h4 : q * (w * 4) = w * 4 * q := by ring
  omega

theorem decomp_div (w r c j : Nat) (hc : c < w) (hj : j < 4) :
    (r * (w * 4) + c * 4 + j) / (w * 4) = r ∧
    (r * (w * 4) + c * 4 + j) % (w * 4) = c * 4 + j ∧
    (r * (w * 4) + c * 4 + j) % 4 = j ∧ (c * 4 + j) / 4 = c := by
  have hw4 : 0 < w * 4 := by omega
  have hcj : c * 4 + j < w * 4 := by
    have : (c + 1) * 4 ≤ w * 4 := Nat.mul_le_mul_right 4 hc
    omega
  have hcomm : r * (w * 4) + c * 4 + j = w * 4 * r + (c * 4 + j) := by ring
  refine ⟨?_, ?_, ?_, by omega⟩
  · rw [hcomm, Nat.mul_add_div hw4, Nat.div_eq_of_lt hcj]
    omega
  · rw [hcomm, Nat.mul_add_mod, Nat.mod_eq_of_lt hcj]
  · have h4 : r * (w * 4) = r * w * 4 := by ring
    omega

/-- C2: on a source buffer of length `width * height * 4`, `convertPNGtoDIB`
succeeds and returns a fresh buffer of the same length in which, for every
source row `r` and column `c`, the four source bytes (R,G,B,A) at offset
`r*rowBytes + c*4` appear at destination offset `(height-1-r)*rowBytes + c*4`
in the order (B,G,R,A).  The embedding is pure, so the source buffer is
unchanged, and since these equations pin down every one of the
`width*height*4` destination bytes, every pixel is processed exactly once. -/
theorem convertPNGtoDIB_pixel_map (src : List Nat) (w h : Nat)
    (hlen : src.length = w * h * 4) :
    ∃ d, convertPNGtoDIB src w h 4 = some d ∧ d.length = src.length ∧
      ∀ r c, r < h → c < w →
        d[(h - 1 - r) * (w * 4) + c * 4]? = src[r * (w * 4) + c * 4 + 2]? ∧
        d[(h - 1 - r) * (w * 4) + c * 4 + 1]? = src[r * (w * 4) + c * 4 + 1]? ∧
        d[(h - 1 - r) * (w * 4) + c * 4 + 2]? = src[r * (w * 4) + c * 4]? ∧
        d[(h - 1 - r) * (w * 4) + c * 4 + 3]? = src[r * (w * 4) + c * 4 + 3]? := by
  obtain ⟨d, hd, hdl, hdw⟩ := convertPNGtoDIB_spec src w h hlen
  refine ⟨d, hd, hdl, ?_⟩
  intro r c hr hc
  have h0 := hdw r c 0 hr hc (by omega)
  have h1 := hdw r c 1 hr hc (by omega)
  have h2 := hdw r c 2 hr hc (by omega)
  have h3 := hdw r c 3 hr hc (by omega)
  simp only [chan] at h0 h1 h2 h3
  exact ⟨by simpa using h0, by simpa using h1, by simpa using h2,
    by simpa using h3⟩

/-- Witness for `convertPNGtoDIB_pixel_map` at a concrete 2 by 2 image. -/
theorem convertPNGtoDIB_pixel_map_witness :
    ([1, 2, 3, 4, 5, 6, 7, 8, 9, 10, 11, 12, 13, 14, 15, 16] : List Nat).length
        = 2 * 2 * 4 ∧
      ∃ d, convertPNGtoDIB [1, 2, 3, 4, 5, 6, 7, 8, 9, 10, 11, 12, 13, 14, 15, 16]
          2 2 4 = some d ∧
        d.length = ([1, 2, 3, 4, 5, 6, 7, 8, 9, 10, 11, 12,
          13, 14, 15, 16] : List Nat).length ∧
        ∀ r c, r < 2 → c < 2 →
          d[(2 - 1 - r) * (2 * 4) + c * 4]? =
            ([1, 2, 3, 4, 5, 6, 7, 8, 9, 10, 11, 12, 13, 14, 15, 16] :
              List Nat)[r * (2 * 4) + c * 4 + 2]? ∧
          d[(2 - 1 - r) * (2 * 4) + c * 4 + 1]? =
            ([1, 2, 3, 4, 5, 6, 7, 8, 9, 10, 11, 12, 13, 14, 15, 16] :
              List Nat)[r * (2 * 4) + c * 4 + 1]? ∧
          d[(2 - 1 - r) * (2 * 4) + c * 4 + 2]? =
            ([1, 2, 3, 4, 5, 6, 7, 8, 9, 10, 11, 12, 13, 14, 15, 16] :
              List Nat)[r * (2 * 4) + c * 4]? ∧
          d[(2 - 1 - r) * (2 * 4) + c * 4 + 3]? =
            ([1, 2, 3, 4, 5, 6, 7, 8, 9, 10, 11, 12, 13, 14, 15, 16] :
              List Nat)[r * (2 * 4) + c * 4 + 3]? :=
  ⟨by decide, convertPNGtoDIB_pixel_map
    [1, 2, 3, 4, 5, 6, 7, 8, 9, 10, 11, 12, 13, 14, 15, 16] 2 2 (by decide)⟩

/-- C9: `convertPNGtoDIB` is an involution: converting a buffer of length
`width * height * 4` twice (same width, height, bpp = 4) returns the
original buffer, because the row reversal and the R/B swap are each
self-inverse. -/
theorem convertPNGtoDIB_involution (src : List Nat) (w h : Nat)
    (hlen : src.length = w * h * 4) :
    ∃ d d2, convertPNGtoDIB src w h 4 = some d ∧
      convertPNGtoDIB d w h 4 = some d2 ∧ d2 = src := by
  obtain ⟨d, hd, hdl, hdw⟩ := convertPNGtoDIB_spec src w h hlen
  obtain ⟨d2, hd2, hd2l, hd2w⟩ := convertPNGtoDIB_spec d w h (hdl.trans hlen)
  refine ⟨d, d2, hd, hd2, ?_⟩
  apply List.ext_getElem?
  intro i
  by_cases hi : i < w * h * 4
  · obtain ⟨r, c, j, hr, hc, hj, rfl⟩ := index_decomp w h i hi
    have e : h - 1 - (h - 1 - r) = r := by omega
    have hstep := hd2w (h - 1 - r) c j (by omega) hc hj
    rw [e] at hstep
    rw [hstep]
    have hstep2 := hdw r c (chan j) hr hc (chan_lt j hj)
    rw [chan_chan j hj] at hstep2
    exact hstep2
  · rw [List.getElem?_eq_none (by omega), List.getElem?_eq_none (by omega)]

/-- Witness for `convertPNGtoDIB_involution` at a concrete 1 by 2 image. -/
theorem convertPNGtoDIB_involution_witness :
    ([1, 2, 3, 4, 5, 6, 7, 8] : List Nat).length = 1 * 2 * 4 ∧
      ∃ d d2, convertPNGtoDIB [1, 2, 3, 4, 5, 6, 7, 8] 1 2 4 = some d ∧
        convertPNGtoDIB d 1 2 4 = some d2 ∧ d2 = [1, 2, 3, 4, 5, 6, 7, 8] :=
  ⟨by decide, convertPNGtoDIB_involution [1, 2, 3, 4, 5, 6, 7, 8] 1 2 (by decide)⟩

/-- C10: under the precondition `src.length = width * height * 4` (bpp = 4),
every `readUInt8`/`writeUInt8` position inside `convertPNGtoDIB` is in
range, so the conversion never throws (`some` in the `Option` model, where
`none` is exactly an out-of-range access); and for `width = 0` or
`height = 0` the loops run zero times and the result is the empty buffer. -/
theorem convertPNGtoDIB_safe (src : List Nat) (w h : Nat)
    (hlen : src.length = w * h * 4) :
    (∃ d, convertPNGtoDIB src w h 4 = some d) ∧
      ((w = 0 ∨ h = 0) → convertPNGtoDIB src w h 4 = some []) := by
  constructor
  · obtain ⟨d, hd, _, _⟩ := convertPNGtoDIB_spec src w h hlen
    exact ⟨d, hd⟩
  · intro h0
    have hsrc : src = [] := by
      rcases h0 with h0 | h0 <;> subst h0 <;> simpa using hlen
    subst hsrc
    rcases h0 with h0 | h0 <;> subst h0
    · simp [convertPNGtoDIB, dibRows]
    · simp only [convertPNGtoDIB]
      by_cases hw : w * 4 = 0 <;> simp [hw, dibRows]

/-- Witness for `convertPNGtoDIB_safe` at a concrete degenerate image. -/
theorem convertPNGtoDIB_safe_witness :
    ([] : List Nat).length = 3 * 0 * 4 ∧
      ((∃ d, convertPNGtoDIB [] 3 0 4 = some d) ∧
        ((3 = 0 ∨ 0 = 0) → convertPNGtoDIB [] 3 0 4 = some [])) :=
  ⟨by decide, convertPNGtoDIB_safe [] 3 0 (by decide)⟩

/-- The inverse transform named by the round-trip law of the spec: reorder
rows from bottom-up back to top-down and swap BGRA back to RGBA.  Output
byte `r*(w*4) + c*4 + j` (top-down RGBA) is input byte
`(h-1-r)*(w*4) + c*4 + chan j` (bottom-up BGRA); `chan` is self-inverse, so
the same channel map swaps B and R back. -/
def inverseDIB (d : List Nat) (w h : Nat) : List Nat :=
  (List.range (h * (w * 4))).map fun i =>
    (d[(h - 1 - i / (w * 4)) * (w * 4) + i % (w * 4) / 4 * 4 +
      chan (i % 4)]?).getD 0

/-- C6: feeding a top-down RGBA buffer of length `width * height * 4`
through `convertPNGtoDIB` and then through the inverse transform
(bottom-up to top-down row reorder combined with the BGRA to RGBA channel
swap) reproduces the original buffer byte for byte. -/
theorem convertPNGtoDIB_roundtrip (src : List Nat) (w h : Nat)
    (hlen : src.length = w * h * 4) :
    ∃ d, convertPNGtoDIB src w h 4 = some d ∧ inverseDIB d w h = src := by
  obtain ⟨d, hd, hdl, hdw⟩ := convertPNGtoDIB_spec src w h hlen
  refine ⟨d, hd, ?_⟩
  have hmul : w * h * 4 = h * (w * 4) := by ring
  apply List.ext_getElem?
  intro i
  by_cases hi : i < h * (w * 4)
  · rw [inverseDIB, List.getElem?_map, List.getElem?_range hi,
      Option.map_some']
    obtain ⟨r, c, j, hr, hc, hj, rfl⟩ := index_decomp w h i (by omega)
    obtain ⟨e1, e2, e3, e4⟩ := decomp_div w r c j hc hj
    rw [e1, e2, e3, e4]
    have hstep := hdw r c (chan j) hr hc (chan_lt j hj)
    rw [chan_chan j hj] at hstep
    rw [hstep, List.getElem?_eq_getElem (by omega)]
    rfl
  · have hl : (inverseDIB d w h).length = h * (w * 4) := by
      simp [inverseDIB]
    rw [List.getElem?_eq_none (by omega), List.getElem?_eq_none (by omega)]

/-- Witness for `convertPNGtoDIB_roundtrip` at a concrete 2 by 1 image. -/
theorem convertPNGtoDIB_roundtrip_witness :
    ([1, 2, 3, 4, 5, 6, 7, 8] : List Nat).length = 2 * 1 * 4 ∧
      ∃ d, convertPNGtoDIB [1, 2, 3, 4, 5, 6, 7, 8] 2 1 4 = some d ∧
        inverseDIB d 2 1 = [1, 2, 3, 4, 5, 6, 7, 8] :=
  ⟨by decide, convertPNGtoDIB_roundtrip [1, 2, 3, 4, 5, 6, 7, 8] 2 1 (by decide)⟩

/-- C5 counterexample: for a source width of 257 the stored one-byte width
field is 0 (the code writes `256 <= png.width ? 0 : png.width`), not the
literal 257 that the claim requires for every dimension other than 256. -/
theorem createDirectory_clamp_cex :
    (createDirectory ⟨257, 16, []⟩ 0)[0]? = some 0 ∧
      (createDirectory ⟨257, 16, []⟩ 0)[0]? ≠ some 257 := by
  decide

/-- C5 (amended): the one-byte width and height fields of a directory entry
encode 0 whenever the source dimension is at least 256 — not only at
exactly 256 — and encode the literal value for dimensions below 256. -/
theorem createDirectory_dimension_bytes (png : PNG) (offset : Nat) :
    (createDirectory png offset)[0]? =
        some (if 256 ≤ png.width then 0 else png.width) ∧
      (createDirectory png offset)[1]? =
        some (if 256 ≤ png.height then 0 else png.height) := by
  constructor <;> simp [createDirectory]

/-- The eleven little-endian fields of a `BITMAPINFOHEADER` for `png`, read
back from the 40 bytes that `createBitmapInfoHeader png BI_RGB` produces:
biSize 40, biWidth, biHeight doubled, biPlanes 1, biBitCount 32,
biCompression 0, biSizeImage, and four zero fields. -/
def bihFields (png : PNG) : Prop :=
  (createBitmapInfoHeader png BI_RGB).length = 40 ∧
  readUInt32LE (createBitmapInfoHeader png BI_RGB) 0 = 40 ∧
  readUInt32LE (createBitmapInfoHeader png BI_RGB) 4 = png.width ∧
  readUInt32LE (createBitmapInfoHeader png BI_RGB) 8 = png.height * 2 ∧
  readUInt16LE (createBitmapInfoHeader png BI_RGB) 12 = 1 ∧
  readUInt16LE (createBitmapInfoHeader png BI_RGB) 14 = 32 ∧
  readUInt32LE (createBitmapInfoHeader png BI_RGB) 16 = 0 ∧
  readUInt32LE (createBitmapInfoHeader png BI_RGB) 20 = png.data.length ∧
  readUInt32LE (createBitmapInfoHeader png BI_RGB) 24 = 0 ∧
  readUInt32LE (createBitmapInfoHeader png BI_RGB) 28 = 0 ∧
  readUInt32LE (createBitmapInfoHeader png BI_RGB) 32 = 0 ∧
  readUInt32LE (createBitmapInfoHeader png BI_RGB) 36 = 0

/-- C7: for every image whose dimensions and pixel length fit the 32-bit
fields (width below 2^31, doubled height below 2^31, data length below
2^32, so the `writeInt32LE`/`writeUInt32LE` calls are in range and the
signed fields coincide with their unsigned reads), the emitted bitmap info
header is exactly 40 bytes and decodes to the claimed field values. -/
theorem createBitmapInfoHeader_fields (png : PNG)
    (hw : png.width < 2147483648) (hh : png.height * 2 < 2147483648)
    (hL : png.data.length < 4294967296) : bihFields png := by
  unfold bihFields
  refine ⟨?_, ?_, ?_, ?_, ?_, ?_, ?_, ?_, ?_, ?_, ?_, ?_⟩ <;>
    simp [readUInt32LE, readUInt16LE, createBitmapInfoHeader, le16, le32,
      List.getD, BITMAPINFOHEADER_SIZE, BPP_ALPHA, BI_RGB] <;>
    omega

/-- Total byte length of the per-image blocks of `l`: each image contributes
its pixel bytes plus a 40-byte bitmap info header.  This is also the total
amount the `writeDirectories` offset accumulator advances over `l`. -/
def sumBlocks : List PNG → Nat
  | [] => 0
  | png :: rest => png.data.length + BITMAPINFOHEADER_SIZE + sumBlocks rest

theorem createDirectory_length (p : PNG) (o : Nat) :
    (createDirectory p o).length = 16 := by
  simp [createDirectory, le16, le32]

theorem createBitmapInfoHeader_length (p : PNG) (c : Nat) :
    (createBitmapInfoHeader p c).length = 40 := by
  simp [createBitmapInfoHeader, le16, le32]

theorem createFileHeader_length (n : Nat) : (createFileHeader n).length = 6 := by
  simp [createFileHeader, le16]

theorem getElem?_some_lt {α : Type} {l : List α} {i : Nat} {p : α}
    (h : l[i]? = some p) : i < l.length := by
  by_contra h0
  rw [List.getElem?_eq_none (by omega)] at h
  cases h

theorem drop_append_len {α : Type} (xs ys : List α) (k : Nat) :
    (xs ++ ys).drop (xs.length + k) = ys.drop k := by
  rw [List.drop_append_eq_append_drop, List.drop_eq_nil_of_le (by omega)]
  simp

theorem drop_append_le {α : Type} (xs ys : List α) (k : Nat)
    (h : k ≤ xs.length) : (xs ++ ys).drop k = xs.drop k ++ ys := by
  rw [List.drop_append_eq_append_drop, Nat.sub_eq_zero_of_le h, List.drop_zero]

theorem readUInt32LE_drop (b : List Nat) (k j : Nat) :
    readUInt32LE (b.drop k) j = readUInt32LE b (k + j) := by
  simp [readUInt32LE, List.getD_eq_getElem?_getD, List.getElem?_drop,
    Nat.add_assoc]

theorem createDirectory_offset_read (p : PNG) (off : Nat) (t : List Nat) :
    readUInt32LE (createDirectory p off ++ t) 12 = off % 4294967296 := by
  simp [readUInt32LE, createDirectory, le16, le32, List.getD, BPP_ALPHA,
    BITMAPINFOHEADER_SIZE]
  omega

theorem dirOffsetsGo_length (pngs : List PNG) :
    ∀ o : Nat, (dirOffsetsGo pngs o).length = pngs.length := by
  induction pngs with
  | nil => intro o; rfl
  | cons q rest ih => intro o; simp [dirOffsetsGo, ih]

theorem dirOffsetsGo_get (pngs : List PNG) :
    ∀ (o i : Nat), i < pngs.length →
      (dirOffsetsGo pngs o)[i]? = some (o + sumBlocks (pngs.take i)) := by
  induction pngs with
  | nil => intro o i hi; simp at hi
  | cons q rest ih =>
    intro o i hi
    match i with
    | 0 => simp [dirOffsetsGo, sumBlocks]
    | i + 1 =>
      rw [dirOffsetsGo]
      rw [List.getElem?_cons_succ,
        ih (o + q.data.length + BITMAPINFOHEADER_SIZE) i (by simpa using hi)]
      have : o + q.data.length + BITMAPINFOHEADER_SIZE +
          sumBlocks (rest.take i) =
          o + sumBlocks ((q :: rest).take (i + 1)) := by
        simp [sumBlocks]
        omega
      rw [this]

theorem sumBlocks_take_succ (pngs : List PNG) :
    ∀ (i : Nat) (p : PNG), pngs[i]? = some p →
      sumBlocks (pngs.take (i + 1)) =
        sumBlocks (pngs.take i) + p.data.length + BITMAPINFOHEADER_SIZE := by
  induction pngs with
  | nil => intro i p hp; cases hp
  | cons q rest ih =>
    intro i p hp
    match i with
    | 0 =>
      rw [List.getElem?_cons_zero] at hp
      cases hp
      simp [sumBlocks]
    | i + 1 =>
      rw [List.getElem?_cons_succ] at hp
      have := ih i p hp
      simp [sumBlocks]
      omega

theorem writeDirectoriesGo_length (pngs : List PNG) :
    ∀ o : Nat, (writeDirectoriesGo pngs o).length = 16 * pngs.length := by
  induction pngs with
  | nil => intro o; rfl
  | cons q rest ih =>
    intro o
    simp [writeDirectoriesGo, createDirectory_length, ih]
    omega

theorem writeDirectories_length (pngs : List PNG) :
    (writeDirectories pngs).length = 16 * pngs.length :=
  writeDirectoriesGo_length pngs _

theorem writeDirectoriesGo_drop (pngs : List PNG) :
    ∀ (o i : Nat) (p : PNG), pngs[i]? = some p →
      ∃ rest, (writeDirectoriesGo pngs o).drop (16 * i) =
        createDirectory p (o + sumBlocks (pngs.take i)) ++ rest := by
  induction pngs with
  | nil => intro o i p hp; cases hp
  | cons q rest ih =>
    intro o i p hp
    match i with
    | 0 =>
      rw [List.getElem?_cons_zero] at hp
      cases hp
      refine ⟨writeDirectoriesGo rest
        (o + q.data.length + BITMAPINFOHEADER_SIZE), ?_⟩
      simp [writeDirectoriesGo, sumBlocks]
    | i + 1 =>
      rw [List.getElem?_cons_succ] at hp
      obtain ⟨r2, hr2⟩ :=
        ih (o + q.data.length + BITMAPINFOHEADER_SIZE) i p hp
      refine ⟨r2, ?_⟩
      rw [writeDirectoriesGo]
      rw [show 16 * (i + 1) = (createDirectory q o).length + 16 * i from by
        rw [createDirectory_length]; omega]
      rw [drop_append_len, hr2]
      have : o + q.data.length + BITMAPINFOHEADER_SIZE +
          sumBlocks (rest.take i) =
          o + sumBlocks ((q :: rest).take (i + 1)) := by
        simp [sumBlocks]
        omega
      rw [this]

theorem writePNGs_drop (pngs : List PNG) :
    ∀ (body : List Nat) (i : Nat) (p : PNG), writePNGs pngs = some body →
      pngs[i]? = some p →
      ∃ dib rest,
        convertPNGtoDIB p.data p.width p.height BPP_ALPHA = some dib ∧
        body.drop (sumBlocks (pngs.take i)) =
          createBitmapInfoHeader p BI_RGB ++ (dib ++ rest) := by
  induction pngs with
  | nil => intro body i p _ hp; cases hp
  | cons q rest ih =>
    intro body i p hbody hp
    rw [writePNGs] at hbody
    simp only [Option.bind_eq_bind, Option.bind_eq_some, Option.pure_def,
      Option.some.injEq] at hbody
    obtain ⟨dib, hdib, tail, htail, hb⟩ := hbody
    match i with
    | 0 =>
      rw [List.getElem?_cons_zero] at hp
      cases hp
      refine ⟨dib, tail, hdib, ?_⟩
      rw [← hb]
      simp [sumBlocks]
    | i + 1 =>
      rw [List.getElem?_cons_succ] at hp
      obtain ⟨dib2, r2, hconv2, hr2⟩ := ih tail i p htail hp
      refine ⟨dib2, r2, hconv2, ?_⟩
      rw [← hb]
      have hdlen : dib.length = q.data.length :=
        convertPNGtoDIB_length _ _ _ _ _ hdib
      have hidx : sumBlocks ((q :: rest).take (i + 1)) =
          (createBitmapInfoHeader q BI_RGB).length +
            (dib.length + sumBlocks (rest.take i)) := by
        rw [createBitmapInfoHeader_length, hdlen]
        simp [sumBlocks, BITMAPINFOHEADER_SIZE]
        omega
      rw [List.append_assoc, hidx, drop_append_len, drop_append_len]
      exact hr2

theorem writePNGs_blocks (pngs : List PNG) :
    ∀ body : List Nat, writePNGs pngs = some body →
      ∃ dibs : List (List Nat), dibs.length = pngs.length ∧
        body = (List.zipWith (fun p dib =>
          createBitmapInfoHeader p BI_RGB ++ dib) pngs dibs).flatten := by
  induction pngs with
  | nil =>
    intro body hbody
    cases Option.some.inj hbody
    exact ⟨[], rfl, rfl⟩
  | cons q rest ih =>
    intro body hbody
    rw [writePNGs] at hbody
    simp only [Option.bind_eq_bind, Option.bind_eq_some, Option.pure_def,
      Option.some.injEq] at hbody
    obtain ⟨dib, _, tail, htail, hb⟩ := hbody
    obtain ⟨dibs, hlen, hflat⟩ := ih tail htail
    refine ⟨dib :: dibs, by simp [hlen], ?_⟩
    rw [← hb, hflat]
    simp [List.append_assoc]

/-- Witness for `createBitmapInfoHeader_fields` at a concrete 1 by 1 image. -/
theorem createBitmapInfoHeader_fields_witness :
    (1 : Nat) < 2147483648 ∧ (1 : Nat) * 2 < 2147483648 ∧
      ([9, 8, 7, 6] : List Nat).length < 4294967296 ∧
      bihFields ⟨1, 1, [9, 8, 7, 6]⟩ :=
  ⟨by decide, by decide, by decide,
    createBitmapInfoHeader_fields ⟨1, 1, [9, 8, 7, 6]⟩ (by decide) (by decide)
      (by decide)⟩

/-- The three offset facts of the directory pass for `pngs`, about the
assembled container `(icoBytes pngs).getD []`:
(1) the first entry receives offset `6 + 16 * count`;
(2) each later entry receives the previous entry's offset plus the
previous image's pixel length plus 40;
(3) every entry's stored little-endian 32-bit offset field decodes to its
accumulator value, and the container bytes at exactly that position start
with that image's 40-byte bitmap info header. -/
def dirOffsetFacts (pngs : List PNG) : Prop :=
  (dirOffsets pngs)[0]? = some (6 + 16 * pngs.length) ∧
  (∀ i p, pngs[i]? = some p → i + 1 < pngs.length →
    ∃ a b, (dirOffsets pngs)[i]? = some a ∧
      (dirOffsets pngs)[i + 1]? = some b ∧ b = a + p.data.length + 40) ∧
  (∀ i p off, pngs[i]? = some p → (dirOffsets pngs)[i]? = some off →
    readUInt32LE ((icoBytes pngs).getD []) (6 + 16 * i + 12) =
      off % 4294967296 ∧
    ∃ rest, ((icoBytes pngs).getD []).drop off =
      createBitmapInfoHeader p BI_RGB ++ rest)

/-- C1: for every non-empty image list whose assembly succeeds, the
directory offsets satisfy the accumulator recurrence (first entry
`6 + 16 * count`, each following entry adds the previous pixel-buffer
length plus 40), and every entry's offset field equals the byte position
at which that image's bitmap info header begins in the final byte
sequence (file header, directory entries, then per-image header plus
converted pixel data, in image order). -/
theorem writeDirectories_offsets (pngs : List PNG) (hne : pngs ≠ [])
    (hsome : (icoBytes pngs).isSome) : dirOffsetFacts pngs := by
  obtain ⟨body, hbody⟩ : ∃ body, writePNGs pngs = some body := by
    rcases h : writePNGs pngs with _ | body
    · rw [icoBytes, h] at hsome
      simp at hsome
    · exact ⟨body, rfl⟩
  have hfile : (icoBytes pngs).getD [] =
      createFileHeader pngs.length ++ writeDirectories pngs ++ body := by
    rw [icoBytes, hbody]
    rfl
  have hF : FILE_HEADER_SIZE = 6 := rfl
  have hI : ICO_DIRECTORY_SIZE = 16 := rfl
  have hB : BITMAPINFOHEADER_SIZE = 40 := rfl
  refine ⟨?_, ?_, ?_⟩
  · rcases pngs with _ | ⟨q, rest⟩
    · exact absurd rfl hne
    · simp [dirOffsets, dirOffsetsGo, FILE_HEADER_SIZE, ICO_DIRECTORY_SIZE]
  · intro i p hp hi1
    refine ⟨FILE_HEADER_SIZE + ICO_DIRECTORY_SIZE * pngs.length +
        sumBlocks (pngs.take i),
      FILE_HEADER_SIZE + ICO_DIRECTORY_SIZE * pngs.length +
        sumBlocks (pngs.take (i + 1)), ?_, ?_, ?_⟩
    · rw [dirOffsets]
      exact dirOffsetsGo_get pngs _ i (getElem?_some_lt hp)
    · rw [dirOffsets]
      exact dirOffsetsGo_get pngs _ (i + 1) (by omega)
    · rw [sumBlocks_take_succ pngs i p hp]
      omega
  · intro i p off hp hoff
    have hilt : i < pngs.length := getElem?_some_lt hp
    have hoff2 := dirOffsetsGo_get pngs
      (FILE_HEADER_SIZE + ICO_DIRECTORY_SIZE * pngs.length) i hilt
    rw [dirOffsets] at hoff
    rw [hoff] at hoff2
    have hoffval : off = 6 + 16 * pngs.length + sumBlocks (pngs.take i) :=
      Option.some.inj hoff2
    constructor
    · rw [hfile, ← readUInt32LE_drop]
      obtain ⟨r2, hr2⟩ := writeDirectoriesGo_drop pngs
        (FILE_HEADER_SIZE + ICO_DIRECTORY_SIZE * pngs.length) i p hp
      have hdrop : (createFileHeader pngs.length ++ writeDirectories pngs ++
          body).drop (6 + 16 * i) = createDirectory p off ++ (r2 ++ body) := by
        rw [List.append_assoc]
        rw [show 6 + 16 * i = (createFileHeader pngs.length).length + 16 * i
          from by rw [createFileHeader_length]]
        rw [drop_append_len]
        rw [drop_append_le _ _ _ (by rw [writeDirectories_length]; omega)]
        rw [writeDirectories, hr2, List.append_assoc, hF, hI, ← hoffval]
      rw [hdrop]
      exact createDirectory_offset_read p off (r2 ++ body)
    · obtain ⟨dib, r3, _, hdropb⟩ := writePNGs_drop pngs body i p hbody hp
      refine ⟨dib ++ r3, ?_⟩
      rw [hfile]
      rw [show off = (createFileHeader pngs.length).length +
          ((writeDirectories pngs).length + sumBlocks (pngs.take i)) from by
        rw [createFileHeader_length, writeDirectories_length]; omega]
      rw [List.append_assoc, drop_append_len, drop_append_len, hdropb]

/-- Witness for `writeDirectories_offsets` at two concrete 1 by 1 images. -/
theorem writeDirectories_offsets_witness :
    ([⟨1, 1, [1, 2, 3, 4]⟩, ⟨1, 1, [5, 6, 7, 8]⟩] : List PNG) ≠ [] ∧
      (icoBytes [⟨1, 1, [1, 2, 3, 4]⟩, ⟨1, 1, [5, 6, 7, 8]⟩]).isSome = true ∧
      dirOffsetFacts [⟨1, 1, [1, 2, 3, 4]⟩, ⟨1, 1, [5, 6, 7, 8]⟩] :=
  ⟨by decide, by decide,
    writeDirectories_offsets [⟨1, 1, [1, 2, 3, 4]⟩, ⟨1, 1, [5, 6, 7, 8]⟩]
      (by decide) (by decide)⟩

/-- The file-header facts for `pngs`: the 6 header bytes decode little
endian as reserved 0, type 1, and count `pngs.length`; and the assembled
container is that header followed by exactly `16 * count` bytes of
directory entries and one `BITMAPINFOHEADER` plus DIB block per image, so
the count equals the number of images actually appended. -/
def fileHeaderFacts (pngs : List PNG) : Prop :=
  (createFileHeader pngs.length).length = 6 ∧
  readUInt16LE (createFileHeader pngs.length) 0 = 0 ∧
  readUInt16LE (createFileHeader pngs.length) 2 = 1 ∧
  readUInt16LE (createFileHeader pngs.length) 4 = pngs.length ∧
  ∃ body dibs,
    writePNGs pngs = some body ∧
    (icoBytes pngs).getD [] =
      createFileHeader pngs.length ++ writeDirectories pngs ++ body ∧
    (writeDirectories pngs).length = 16 * pngs.length ∧
    dibs.length = pngs.length ∧
    body = (List.zipWith (fun p dib =>
      createBitmapInfoHeader p BI_RGB ++ dib) pngs dibs).flatten

/-- C8: for every image list whose assembly succeeds and whose length fits
the 16-bit count field, the emitted file header is exactly 6 bytes with
little-endian reserved 0, type 1, and image count equal to the number of
images for which a directory entry and a header-plus-pixel block are
actually appended. -/
theorem createFileHeader_count (pngs : List PNG)
    (hn : pngs.length < 65536) (hsome : (icoBytes pngs).isSome) :
    fileHeaderFacts pngs := by
  obtain ⟨body, hbody⟩ : ∃ body, writePNGs pngs = some body := by
    rcases h : writePNGs pngs with _ | body
    · rw [icoBytes, h] at hsome
      simp at hsome
    · exact ⟨body, rfl⟩
  obtain ⟨dibs, hdibs, hflat⟩ := writePNGs_blocks pngs body hbody
  refine ⟨createFileHeader_length _, ?_, ?_, ?_, body, dibs, hbody, ?_,
    writeDirectories_length pngs, hdibs, hflat⟩
  · simp [readUInt16LE, createFileHeader, le16, List.getD]
  · simp [readUInt16LE, createFileHeader, le16, List.getD]
  · simp [readUInt16LE, createFileHeader, le16, List.getD]
    omega
  · rw [icoBytes, hbody]
    rfl

/-- Witness for `createFileHeader_count` at one concrete 1 by 1 image. -/
theorem createFileHeader_count_witness :
    ([⟨1, 1, [1, 2, 3, 4]⟩] : List PNG).length < 65536 ∧
      (icoBytes [⟨1, 1, [1, 2, 3, 4]⟩]).isSome = true ∧
      fileHeaderFacts [⟨1, 1, [1, 2, 3, 4]⟩] :=
  ⟨by decide, by decide,
    createFileHeader_count [⟨1, 1, [1, 2, 3, 4]⟩] (by decide) (by decide)⟩

/-- Failure modes observable from `generateICO`/`createIconFile` in ico.js.
`unlinkEnoent` is the `ENOENT` error that `fs.unlinkSync` throws when no
file exists at the path it is asked to remove. -/
inductive IcoError
  | noMatchingImages
  | decodeFailure
  | openFailure
  | writeFailure
  | finalizeFailure
  | unlinkEnoent
  deriving DecidableEq

/-- Behaviour of the write stream used by `createIconFile`
(`fs.createWriteStream` plus the writes and `end`): it either becomes
ready and accepts everything, emits an error before ready (open failure),
fails after some prefix of the bytes reached the file, or fails while
finalizing. -/
inductive SinkSpec
  | ok
  | openFail
  | writeFail (n : Nat)
  | finalizeFail
  deriving DecidableEq

/-- Model of `fs.unlinkSync` at the destination path: removes the file when
one exists, throws `ENOENT` when none does. -/
def unlinkSync (f : Option (List Nat)) :
    Except IcoError (Option (List Nat)) :=
  match f with
  | none => Except.error IcoError.unlinkEnoent
  | some _ => Except.ok none

/-- Model of `createIconFile pngs` writing to the destination path.  The
second component of the result is the file at the destination afterwards
(`none` when no file exists there); `dest0` is the prior state of that
path.  The promise rejects before the stream is created when `pngs` is
empty, so the path is untouched; an open failure also leaves the path
untouched; otherwise the stream replaces the path content with whatever
prefix of `icoBytes pngs` the sink accepted.  The outer `none` models
`convertPNGtoDIB` throwing inside the `ready` callback — an uncaught
exception, not a rejection — and is never reached for well-formed images. -/
def createIconFile (pngs : List PNG) (sink : SinkSpec)
    (dest0 : Option (List Nat)) :
    Option (Except IcoError Unit × Option (List Nat)) :=
  if pngs.length = 0 then
    some (Except.error IcoError.noMatchingImages, dest0)
  else
    match sink, icoBytes pngs with
    | SinkSpec.openFail, _ => some (Except.error IcoError.openFailure, dest0)
    | _, none => none
    | SinkSpec.ok, some bytes => some (Except.ok (), some bytes)
    | SinkSpec.writeFail n, some bytes =>
      some (Except.error IcoError.writeFailure, some (bytes.take n))
    | SinkSpec.finalizeFail, some bytes =>
      some (Except.error IcoError.finalizeFailure, some bytes)

/-- Model of `generateICO`: `decoded` is the outcome of `readPNGs` (decode
failures come from the external decoder), `sink` the stream behaviour,
`dest0` the prior content of the destination path.  It mirrors
`try { readPNGs; createIconFile } catch (err) { fs.unlinkSync(dest);
throw err }`: on any caught failure the destination is unlinked first,
and an `ENOENT` thrown by `unlinkSync` itself replaces the caught error. -/
def generateICO (decoded : Except IcoError (List PNG)) (sink : SinkSpec)
    (dest0 : Option (List Nat)) :
    Option (Except IcoError Unit × Option (List Nat)) :=
  match decoded with
  | Except.error e =>
    match unlinkSync dest0 with
    | Except.error e2 => some (Except.error e2, dest0)
    | Except.ok f => some (Except.error e, f)
  | Except.ok pngs =>
    match createIconFile pngs sink dest0 with
    | none => none
    | some (Except.ok _, f) => some (Except.ok (), f)
    | some (Except.error e, f) =>
      match unlinkSync f with
      | Except.error e2 => some (Except.error e2, f)
      | Except.ok f2 => some (Except.error e, f2)

/-- C3 (code bug): with zero matching images and no pre-existing file at
the destination path, `createIconFile` rejects with the no-matching-images
error before any output is created, and no file exists afterwards — but
the error `generateICO` propagates is the `ENOENT` thrown by the cleanup
`fs.unlinkSync` on the never-created destination, which masks the
no-matching-images rejection. -/
theorem generateICO_noMatching_masked :
    createIconFile [] SinkSpec.ok none =
        some (Except.error IcoError.noMatchingImages, none) ∧
      generateICO (Except.ok []) SinkSpec.ok none =
        some (Except.error IcoError.unlinkEnoent, none) ∧
      IcoError.unlinkEnoent ≠ IcoError.noMatchingImages :=
  ⟨rfl, rfl, by decide⟩

/-- C4 (code bug): on a decode failure with no file at the destination
path, the cleanup has nothing to remove and `fs.unlinkSync` throws
`ENOENT`, which replaces the decode error before it reaches the caller;
the same happens for an open failure.  (No file survives, but the claimed
removal-then-propagation of the original error does not happen on these
paths.) -/
theorem generateICO_cleanup_masked :
    generateICO (Except.error IcoError.decodeFailure) SinkSpec.ok none =
        some (Except.error IcoError.unlinkEnoent, none) ∧
      generateICO (Except.ok [⟨1, 1, [1, 2, 3, 4]⟩]) SinkSpec.openFail none =
        some (Except.error IcoError.unlinkEnoent, none) ∧
      IcoError.unlinkEnoent ≠ IcoError.decodeFailure ∧
      IcoError.unlinkEnoent ≠ IcoError.openFailure :=
  ⟨rfl, rfl, by decide, by decide⟩

/-- Whenever the modelled `generateICO` terminates with an error, no file
is left at the destination: either the cleanup removed one or none ever
existed there (and the cleanup itself threw `ENOENT`). -/
theorem generateICO_no_partial (decoded : Except IcoError (List PNG))
    (sink : SinkSpec) (dest0 : Option (List Nat)) (e : IcoError)
    (f : Option (List Nat))
    (h : generateICO decoded sink dest0 = some (Except.error e, f)) :
    f = none := by
  rcases decoded with e0 | pngs
  · rcases dest0 with _ | old <;> simp [generateICO, unlinkSync] at h <;>
      tauto
  · rcases hc : createIconFile pngs sink dest0 with _ | ⟨res, f1⟩
    · simp [generateICO, hc] at h
    · rcases res with e1 | u
      · rcases f1 with _ | x <;>
          simp [generateICO, hc, unlinkSync] at h <;> tauto
      · simp [generateICO, hc] at h

/-- On a write failure after the sink was opened, the partial file is
removed and the original write error is the one propagated. -/
theorem generateICO_writeFail_cleanup (pngs : List PNG) (bytes : List Nat)
    (n : Nat) (dest0 : Option (List Nat)) (hne : pngs ≠ [])
    (hb : icoBytes pngs = some bytes) :
    generateICO (Except.ok pngs) (SinkSpec.writeFail n) dest0 =
      some (Except.error IcoError.writeFailure, none) := by
  have hlen : ¬ pngs.length = 0 := by
    simpa [List.length_eq_zero] using hne
  simp [generateICO, createIconFile, hlen, hb, unlinkSync]
